import Mathlib

/-!
Shallow embedding of the mock AI-tools backend (api/ai_tools.py) and its
Flask twin (ai_tools.py): six string-processing tool handlers, a fixed
registry, and a serverless dispatch function that wraps results and errors
into response envelopes.  Randomized choices (random.choice, random.sample)
are modelled by explicit natural-number choice parameters reduced modulo the
candidate-list length, so every possible draw is covered by quantifying over
the parameters.  Python floats only appear as fixed literal confidences and
scores that the code prints with the :.2% format; every reachable value
formats exactly, so they are modelled as integer hundredths of a percent.
-/

/-- Python str.lower, restricted to the ASCII range exercised here. -/
def pyLower (s : String) : String := s.map Char.toLower

/-- Python str.split() with no argument: split on whitespace runs, dropping
empty fragments. -/
def wordsOf (s : String) : List String :=
  ((pyLower s).split Char.isWhitespace).filter (fun w => w ≠ "")

/-- Rendering of a confidence or score held in hundredths of a percent by
the Python format spec :.2%  (e.g. 5000 ↦ "50.00%"). -/
def fmtPct (bp : Nat) : String :=
  toString (bp / 100) ++ "." ++ (if bp % 100 < 10 then "0" else "")
    ++ toString (bp % 100) ++ "%"

def positive_words : List String :=
  ["good", "great", "excellent", "amazing", "wonderful", "happy", "love",
   "best", "fantastic"]

def negative_words : List String :=
  ["bad", "terrible", "awful", "horrible", "hate", "worst", "poor", "sad",
   "disappointing"]

/-- len(words & positive_words) and len(words & negative_words) from
SemanticsAnalyzer.process_query; the word lists hold no duplicates, so
filtering them by membership in the input words counts the set
intersection. -/
def semantics_counts (input : String) : Nat × Nat :=
  let words := wordsOf input
  ((positive_words.filter (fun w => w ∈ words)).length,
   (negative_words.filter (fun w => w ∈ words)).length)

/-- Mock SemanticsAnalyzer.process_query, result string only.  Confidence
min(0.95, 0.60 + count*0.1) is held in hundredths of a percent. -/
def semantics_processQuery (text_input : String) : String :=
  let pos_count := (semantics_counts text_input).1
  let neg_count := (semantics_counts text_input).2
  if pos_count > neg_count then
    "Sentiment: POSITIVE (confidence: "
      ++ fmtPct (min 9500 (6000 + pos_count * 1000)) ++ ")"
  else if neg_count > pos_count then
    "Sentiment: NEGATIVE (confidence: "
      ++ fmtPct (min 9500 (6000 + neg_count * 1000)) ++ ")"
  else
    "Sentiment: NEUTRAL (confidence: " ++ fmtPct 5000 ++ ")"

lemma filter_len_pos_of_mem {l : List String} {ws : List String} {w : String}
    (hw : w ∈ l) (hmem : w ∈ ws) :
    0 < (l.filter (fun w => w ∈ ws)).length := by
  have : w ∈ l.filter (fun w => w ∈ ws) := by
    simp only [List.mem_filter, decide_eq_true_eq]
    exact ⟨hw, hmem⟩
  exact List.length_pos.mpr (List.ne_nil_of_mem this)

lemma filter_len_zero_of_not_mem {l : List String} {ws : List String}
    (h : ∀ w ∈ l, w ∉ ws) :
    (l.filter (fun w => w ∈ ws)).length = 0 := by
  simp only [List.length_eq_zero, List.filter_eq_nil_iff, decide_eq_true_eq]
  exact h

/-- C4: the mock SemanticsAnalyzer output always has the shape
"Sentiment: LABEL (confidence: pct)" with LABEL one of POSITIVE, NEGATIVE,
NEUTRAL; inputs whose words meet the positive set and miss the negative set
get POSITIVE, the mirror case gets NEGATIVE, and inputs disjoint from both
sets get NEUTRAL at exactly 50.00%. -/
theorem semantics_sentiment_spec (input : String) :
    ∃ lab conf,
      semantics_processQuery input =
        "Sentiment: " ++ lab ++ " (confidence: " ++ conf ++ ")"
      ∧ (lab = "POSITIVE" ∨ lab = "NEGATIVE" ∨ lab = "NEUTRAL")
      ∧ ((∃ w ∈ positive_words, w ∈ wordsOf input)
          ∧ (∀ w ∈ negative_words, w ∉ wordsOf input) → lab = "POSITIVE")
      ∧ ((∃ w ∈ negative_words, w ∈ wordsOf input)
          ∧ (∀ w ∈ positive_words, w ∉ wordsOf input) → lab = "NEGATIVE")
      ∧ ((∀ w ∈ positive_words, w ∉ wordsOf input)
          ∧ (∀ w ∈ negative_words, w ∉ wordsOf input) →
          lab = "NEUTRAL" ∧ conf = "50.00%") := by
  unfold semantics_processQuery
  set pc := (semantics_counts input).1 with hpc
  set nc := (semantics_counts input).2 with hnc
  have hpcdef : pc = (positive_words.filter (fun w => w ∈ wordsOf input)).length := by
    simp [hpc, semantics_counts]
  have hncdef : nc = (negative_words.filter (fun w => w ∈ wordsOf input)).length := by
    simp [hnc, semantics_counts]
  dsimp only
  split_ifs with h1 h2
  · refine ⟨"POSITIVE", fmtPct (min 9500 (6000 + pc * 1000)), rfl, Or.inl rfl,
      fun _ => rfl, fun hcond => ?_, fun hcond => ?_⟩
    · obtain ⟨⟨w, hw, hwmem⟩, hnone⟩ := hcond
      have h0 : pc = 0 := by rw [hpcdef]; exact filter_len_zero_of_not_mem hnone
      have : 0 < nc := by
        rw [hncdef]; exact filter_len_pos_of_mem hw hwmem
      omega
    · obtain ⟨hp, hn⟩ := hcond
      have h0 : pc = 0 := by rw [hpcdef]; exact filter_len_zero_of_not_mem hp
      omega
  · refine ⟨"NEGATIVE", fmtPct (min 9500 (6000 + nc * 1000)), rfl, Or.inr (Or.inl rfl),
      fun hcond => ?_, fun _ => rfl, fun hcond => ?_⟩
    · obtain ⟨⟨w, hw, hwmem⟩, hnone⟩ := hcond
      have h0 : nc = 0 := by rw [hncdef]; exact filter_len_zero_of_not_mem hnone
      have : 0 < pc := by
        rw [hpcdef]; exact filter_len_pos_of_mem hw hwmem
      omega
    · obtain ⟨hp, hn⟩ := hcond
      have h0 : nc = 0 := by rw [hncdef]; exact filter_len_zero_of_not_mem hn
      omega
  · refine ⟨"NEUTRAL", "50.00%", by rfl, Or.inr (Or.inr rfl),
      fun hcond => ?_, fun hcond => ?_, fun _ => ⟨rfl, rfl⟩⟩
    · obtain ⟨⟨w, hw, hwmem⟩, hnone⟩ := hcond
      have h0 : nc = 0 := by rw [hncdef]; exact filter_len_zero_of_not_mem hnone
      have : 0 < pc := by
        rw [hpcdef]; exact filter_len_pos_of_mem hw hwmem
      omega
    · obtain ⟨⟨w, hw, hwmem⟩, hnone⟩ := hcond
      have h0 : pc = 0 := by rw [hpcdef]; exact filter_len_zero_of_not_mem hnone
      have : 0 < nc := by
        rw [hncdef]; exact filter_len_pos_of_mem hw hwmem
      omega

/-- Instantiation of the SemanticsAnalyzer contract at the concrete input
"great stuff", whose words meet the positive set and miss the negative
set. -/
theorem semantics_sentiment_spec_witness :
    ∃ lab conf,
      semantics_processQuery "great stuff" =
        "Sentiment: " ++ lab ++ " (confidence: " ++ conf ++ ")"
      ∧ (lab = "POSITIVE" ∨ lab = "NEGATIVE" ∨ lab = "NEUTRAL")
      ∧ ((∃ w ∈ positive_words, w ∈ wordsOf "great stuff")
          ∧ (∀ w ∈ negative_words, w ∉ wordsOf "great stuff") → lab = "POSITIVE")
      ∧ ((∃ w ∈ negative_words, w ∈ wordsOf "great stuff")
          ∧ (∀ w ∈ positive_words, w ∉ wordsOf "great stuff") → lab = "NEGATIVE")
      ∧ ((∀ w ∈ positive_words, w ∉ wordsOf "great stuff")
          ∧ (∀ w ∈ negative_words, w ∉ wordsOf "great stuff") →
          lab = "NEUTRAL" ∧ conf = "50.00%") :=
  semantics_sentiment_spec "great stuff"

/-- The fixed candidate table of the mock ImageClassifier; scores in
hundredths of a percent. -/
def categories : List (String × Nat) :=
  [("cat", 8700), ("dog", 7200), ("bird", 6500),
   ("landscape", 7800), ("food", 8100), ("person", 6900)]

/-- One draw without replacement: an arbitrary index (reduced modulo the
list length) together with the remaining candidates. -/
def pick (l : List (String × Nat)) (k : Nat) :
    (String × Nat) × List (String × Nat) :=
  let i := k % l.length
  (l.getD i ("", 0), l.eraseIdx i)

/-- random.sample(categories, 3): three successive draws without
replacement, each steered by its own arbitrary choice number. -/
def sample3 (k0 k1 k2 : Nat) : List (String × Nat) :=
  let p0 := pick categories k0
  let p1 := pick p0.2 k1
  let p2 := pick p1.2 k2
  [p0.1, p1.1, p2.1]

/-- Comparison used by sorted(selected, key=lambda x: x[1], reverse=True). -/
def scoreGe (a b : String × Nat) : Prop := b.2 ≤ a.2

instance : DecidableRel scoreGe :=
  fun a b => inferInstanceAs (Decidable (b.2 ≤ a.2))

instance : IsTotal (String × Nat) scoreGe := ⟨fun a b => Nat.le_total b.2 a.2⟩

instance : IsTrans (String × Nat) scoreGe :=
  ⟨fun _ _ _ h1 h2 => Nat.le_trans h2 h1⟩

/-- The sample sorted by descending score.  The scores in the candidate
table are pairwise distinct, so the stable Python sort and insertion sort
return the same list. -/
def imageSorted (k0 k1 k2 : Nat) : List (String × Nat) :=
  (sample3 k0 k1 k2).insertionSort scoreGe

/-- One output line of the mock ImageClassifier. -/
def imageLine (lc : String × Nat) : String :=
  "- " ++ lc.1 ++ ": " ++ fmtPct lc.2 ++ "\n"

/-- Mock ImageClassifier.process_query, result string only; the payload
argument is kept to mirror the Python signature. -/
def image_processQuery (image_data : String) (k0 k1 k2 : Nat) : String :=
  "I see:\n" ++ String.join ((imageSorted k0 k1 k2).map imageLine)

lemma sample3_length (k0 k1 k2 : Nat) : (sample3 k0 k1 k2).length = 3 := rfl

/-- C5: for every payload and every random draw, the mock ImageClassifier
output is the header line followed by exactly three formatted label lines in
non-increasing score order. -/
theorem image_classifier_shape (image_data : String) (k0 k1 k2 : Nat) :
    ∃ x1 x2 x3 : String × Nat,
      imageSorted k0 k1 k2 = [x1, x2, x3]
      ∧ x2.2 ≤ x1.2 ∧ x3.2 ≤ x2.2
      ∧ image_processQuery image_data k0 k1 k2 =
          "I see:\n" ++ imageLine x1 ++ imageLine x2 ++ imageLine x3 := by
  have hlen : (imageSorted k0 k1 k2).length = 3 := by
    rw [imageSorted, List.length_insertionSort, sample3_length]
  obtain ⟨x1, x2, x3, hx⟩ := List.length_eq_three.mp hlen
  have hs : (imageSorted k0 k1 k2).Sorted scoreGe :=
    List.sorted_insertionSort scoreGe (sample3 k0 k1 k2)
  rw [hx] at hs
  simp only [List.sorted_cons, List.mem_cons, List.mem_singleton] at hs
  refine ⟨x1, x2, x3, hx, ?_, ?_, ?_⟩
  · exact hs.1 x2 (Or.inl rfl)
  · exact hs.2.1 x3 (Or.inl rfl)
  · rw [image_processQuery, hx]
    simp only [List.map_cons, List.map_nil]
    rw [show String.join [imageLine x1, imageLine x2, imageLine x3]
          = imageLine x1 ++ imageLine x2 ++ imageLine x3 from rfl,
        String.append_assoc, String.append_assoc, String.append_assoc]

/-- C9: the mock ImageClassifier never inspects its payload: two arbitrary
payloads processed from the same random-source state yield identical
output. -/
theorem image_classifier_payload_independent
    (d1 d2 : String) (k0 k1 k2 : Nat) :
    image_processQuery d1 k0 k1 k2 = image_processQuery d2 k0 k1 k2 := rfl

/-- Python str.format with the single field topic: replace every
occurrence of the placeholder. -/
def pyFormatTopic (template : String) (topic : String) : String :=
  template.replace "{topic}" topic

/-- Python str.capitalize: first character uppercased, the rest
lowercased (ASCII range). -/
def pyCapitalize (s : String) : String :=
  match s.data with
  | [] => ""
  | c :: rest => ⟨Char.toUpper c :: rest.map Char.toLower⟩

def joke_templates : List String :=
  ["Why did the {topic} cross the road? To get to the other side!",
   "What do you call a {topic} that can\x27t stop talking? A chatter-{topic}!",
   "How many {topic}s does it take to change a lightbulb? Just one, but it takes forever!",
   "A {topic} walks into a bar. The bartender says, \x27We don\x27t serve {topic}s here!\x27",
   "What\x27s a {topic}\x27s favorite type of music? Anything with a good beat!"]

/-- Mock JokeGenerator.process_query, result string only; k steers
random.choice over the template list. -/
def joke_processQuery (text_input : String) (k : Nat) : String :=
  let template := joke_templates.getD (k % joke_templates.length) ""
  "Here\x27s a funny joke about " ++ text_input ++ ":\n"
    ++ pyFormatTopic template text_input

def haiku_templates : List String :=
  ["{topic} shines bright\nIn the quiet morning light\nPeace fills the new day",
   "Dancing {topic}\nWhispers secrets to the wind\nNature\x27s gentle song",
   "{topic} stands tall\nSilent witness to the world\nTimeless and serene"]

/-- Mock HaikuWriter.process_query, result string only; k steers
random.choice over the template list. -/
def haiku_processQuery (text_input : String) (k : Nat) : String :=
  let template := haiku_templates.getD (k % haiku_templates.length) ""
  "Write a haiku (5-7-5 syllables) about " ++ text_input ++ ":\n"
    ++ pyFormatTopic template (pyCapitalize text_input)

def qa_answers : List String :=
  ["Because that\x27s how nature designed it to work.",
   "Because it helps maintain balance in the system.",
   "Because of scientific principles we\x27re still discovering.",
   "Because that\x27s what makes it unique and special.",
   "Because evolution favored this adaptation over time."]

/-- Mock QuestionAnswerer.process_query, result string only; k steers
random.choice over the answer list. -/
def question_processQuery (text_input : String) (k : Nat) : String :=
  "Question: " ++ text_input ++ "\nAnswer: "
    ++ qa_answers.getD (k % qa_answers.length) ""

lemma append_ne_empty_of_left {s t : String} (h : 0 < s.length) :
    s ++ t ≠ "" := by
  intro he
  have hl : (s ++ t).length = 0 := by rw [he]; rfl
  rw [String.length_append] at hl
  omega

/-- C7: for every topic or question and every random choice, the mock
JokeGenerator, HaikuWriter and QuestionAnswerer results each embed the
literal input as a substring and are non-empty. -/
theorem generators_contain_input (input : String) (k : Nat) :
    ((∃ p q, joke_processQuery input k = p ++ input ++ q)
        ∧ joke_processQuery input k ≠ "")
    ∧ ((∃ p q, haiku_processQuery input k = p ++ input ++ q)
        ∧ haiku_processQuery input k ≠ "")
    ∧ ((∃ p q, question_processQuery input k = p ++ input ++ q)
        ∧ question_processQuery input k ≠ "") := by
  refine ⟨⟨⟨"Here\x27s a funny joke about ",
        ":\n" ++ pyFormatTopic (joke_templates.getD (k % joke_templates.length) "") input,
        ?_⟩, ?_⟩,
      ⟨⟨"Write a haiku (5-7-5 syllables) about ",
        ":\n" ++ pyFormatTopic (haiku_templates.getD (k % haiku_templates.length) "")
          (pyCapitalize input), ?_⟩, ?_⟩,
      ⟨⟨"Question: ", "\nAnswer: " ++ qa_answers.getD (k % qa_answers.length) "", ?_⟩, ?_⟩⟩
  · rw [joke_processQuery]
    simp only [String.append_assoc]
  · rw [joke_processQuery]
    apply append_ne_empty_of_left
    simp only [String.length_append]
    have hlit : ("Here\x27s a funny joke about " : String).length = 26 := rfl
    omega
  · rw [haiku_processQuery]
    simp only [String.append_assoc]
  · rw [haiku_processQuery]
    apply append_ne_empty_of_left
    simp only [String.length_append]
    have hlit : ("Write a haiku (5-7-5 syllables) about " : String).length = 38 := rfl
    omega
  · rw [question_processQuery]
    simp only [String.append_assoc]
  · rw [question_processQuery]
    apply append_ne_empty_of_left
    simp only [String.length_append]
    have hlit : ("Question: " : String).length = 10 := rfl
    omega

/-- Sentence-terminator normalization: text.replace applied twice with
single-character arguments acts characterwise. -/
def termToDot (c : Char) : Char := if c = '!' ∨ c = '?' then '.' else c

/-- Python str.split(".") at character-list level: cut at every dot,
keeping empty fragments (so the result is always non-empty). -/
def splitDot : List Char → List (List Char)
  | [] => [[]]
  | c :: rest =>
    if c = '.' then [] :: splitDot rest
    else (c :: (splitDot rest).headI) :: (splitDot rest).tail

/-- Python str.strip(): drop whitespace from both ends. -/
def pyStrip (l : List Char) : List Char :=
  List.rdropWhile Char.isWhitespace (List.dropWhile Char.isWhitespace l)

/-- The sentence list computed by TextSummarizer.process_query: replace
terminators, split on dots, strip each fragment, drop empty fragments. -/
def sentencesOf (s : String) : List (List Char) :=
  ((splitDot (s.data.map termToDot)).map pyStrip).filter (fun x => x ≠ [])

/-- Python ". ".join at character-list level. -/
def joinSents : List (List Char) → List Char
  | [] => []
  | [x] => x
  | x :: y :: rest => x ++ '.' :: ' ' :: joinSents (y :: rest)

/-- The kept head of the sentence list: sentences[:min(3, max(1, n//3))]. -/
def summarySentences (s : String) : List (List Char) :=
  (sentencesOf s).take (min 3 (max 1 ((sentencesOf s).length / 3)))

/-- Mock TextSummarizer.process_query, result string only. -/
def summarize (s : String) : String :=
  ⟨joinSents (summarySentences s) ++ ['.']⟩

def sentenceCount (s : String) : Nat := (sentencesOf s).length

def sumLen (xs : List (List Char)) : Nat := (xs.map List.length).sum

lemma splitDot_ne_nil (l : List Char) : splitDot l ≠ [] := by
  cases l with
  | nil => simp [splitDot]
  | cons c rest =>
    rw [splitDot]
    split_ifs <;> simp

lemma splitDot_sum (l : List Char) :
    sumLen (splitDot l) + (splitDot l).length = l.length + 1 := by
  induction l with
  | nil => simp [splitDot, sumLen]
  | cons c rest ih =>
    rw [splitDot]
    cases h : splitDot rest with
    | nil => exact absurd h (splitDot_ne_nil rest)
    | cons q qs =>
      rw [h] at ih
      simp only [sumLen, List.map_cons, List.sum_cons, List.length_cons] at ih
      split_ifs with hc
      · simp only [sumLen, List.map_cons, List.sum_cons, List.length_cons,
          List.length_nil, h]
        omega
      · simp only [h, List.headI, List.tail, sumLen, List.map_cons,
          List.sum_cons, List.length_cons]
        omega

lemma splitDot_sub (l : List Char) :
    ∀ p ∈ splitDot l, ∀ c ∈ p, c ∈ l := by
  induction l with
  | nil => simp [splitDot]
  | cons a rest ih =>
    intro p hp c hc
    rw [splitDot] at hp
    cases h : splitDot rest with
    | nil => exact absurd h (splitDot_ne_nil rest)
    | cons q qs =>
      rw [h] at hp
      split_ifs at hp with ha
      · rcases List.mem_cons.mp hp with hpe | hpm
        · subst hpe; exact absurd hc (List.not_mem_nil c)
        · exact List.mem_cons_of_mem a (ih p (h ▸ hpm) c hc)
      · simp only [List.headI, List.tail] at hp
        rcases List.mem_cons.mp hp with hpe | hpm
        · subst hpe
          rcases List.mem_cons.mp hc with hce | hcm
          · exact hce ▸ List.mem_cons_self a rest
          · exact List.mem_cons_of_mem a
              (ih q (h ▸ List.mem_cons_self q qs) c hcm)
        · exact List.mem_cons_of_mem a
            (ih p (h ▸ List.mem_cons_of_mem q hpm) c hc)

lemma splitDot_no_dot (l : List Char) :
    ∀ p ∈ splitDot l, '.' ∉ p := by
  induction l with
  | nil => simp [splitDot]
  | cons a rest ih =>
    intro p hp
    rw [splitDot] at hp
    cases h : splitDot rest with
    | nil => exact absurd h (splitDot_ne_nil rest)
    | cons q qs =>
      rw [h] at hp
      split_ifs at hp with ha
      · rcases List.mem_cons.mp hp with hpe | hpm
        · subst hpe; exact List.not_mem_nil '.'
        · exact ih p (h ▸ hpm)
      · simp only [List.headI, List.tail] at hp
        rcases List.mem_cons.mp hp with hpe | hpm
        · subst hpe
          intro hcm
          rcases List.mem_cons.mp hcm with hce | hcm2
          · exact ha hce.symm
          · exact ih q (h ▸ List.mem_cons_self q qs) hcm2
        · exact ih p (h ▸ List.mem_cons_of_mem q hpm)

lemma splitDot_append_dot (x y : List Char) (hx : '.' ∉ x) :
    splitDot (x ++ '.' :: y) = x :: splitDot y := by
  induction x with
  | nil => simp [splitDot]
  | cons a xtl ih =>
    have ha : ¬ a = '.' := fun h => hx (h ▸ List.mem_cons_self a xtl)
    rw [List.cons_append, splitDot,
      ih (fun h => hx (List.mem_cons_of_mem a h))]
    simp [ha]

lemma dropWhile_rdropWhile_fix {p : Char → Bool} {y : List Char}
    (hy : List.dropWhile p y = y) :
    List.dropWhile p (List.rdropWhile p y) = List.rdropWhile p y := by
  cases hr : List.rdropWhile p y with
  | nil => simp
  | cons c cs =>
    obtain ⟨t, ht⟩ := List.rdropWhile_prefix p y
    rw [hr] at ht
    subst ht
    have h0 := List.dropWhile_eq_self_iff.mp hy (by simp)
    simp only [List.get] at h0
    rw [List.dropWhile_cons, if_neg h0]

lemma pyStrip_idem (l : List Char) : pyStrip (pyStrip l) = pyStrip l := by
  unfold pyStrip
  rw [dropWhile_rdropWhile_fix (List.dropWhile_idempotent Char.isWhitespace l)]
  exact List.rdropWhile_idempotent Char.isWhitespace (List.dropWhile Char.isWhitespace l)

lemma pyStrip_sub (l : List Char) : ∀ c ∈ pyStrip l, c ∈ l := by
  intro c hc
  unfold pyStrip at hc
  obtain ⟨t, ht⟩ := List.rdropWhile_prefix Char.isWhitespace
    (List.dropWhile Char.isWhitespace l)
  obtain ⟨t2, ht2⟩ := List.dropWhile_suffix (l := l) Char.isWhitespace
  rw [← ht2, ← ht]
  exact List.mem_append_right t2 (List.mem_append_left t hc)

lemma pyStrip_length_le (l : List Char) : (pyStrip l).length ≤ l.length := by
  unfold pyStrip
  calc (List.rdropWhile Char.isWhitespace
          (List.dropWhile Char.isWhitespace l)).length
      ≤ (List.dropWhile Char.isWhitespace l).length :=
        ( List.rdropWhile_prefix Char.isWhitespace _).sublist.length_le
    _ ≤ l.length := (List.dropWhile_suffix Char.isWhitespace).sublist.length_le

lemma pyStrip_cons_ws {c : Char} (hc : Char.isWhitespace c = true)
    (x : List Char) : pyStrip (c :: x) = pyStrip x := by
  unfold pyStrip
  rw [List.dropWhile_cons, if_pos hc]

lemma joinSents_length (ts : List (List Char)) (h : ts ≠ []) :
    (joinSents ts).length + 2 = sumLen ts + 2 * ts.length := by
  induction ts with
  | nil => exact absurd rfl h
  | cons x rest ih =>
    cases rest with
    | nil => simp [joinSents, sumLen]
    | cons y r2 =>
      rw [joinSents]
      have hih := ih (by simp)
      simp only [sumLen, List.map_cons, List.sum_cons, List.length_cons,
        List.length_append] at hih ⊢
      omega

lemma joinSents_mem (ts : List (List Char)) :
    ∀ c ∈ joinSents ts, (∃ x ∈ ts, c ∈ x) ∨ c = '.' ∨ c = ' ' := by
  induction ts with
  | nil => simp [joinSents]
  | cons x rest ih =>
    cases rest with
    | nil =>
      intro c hc
      exact Or.inl ⟨x, List.mem_cons_self x [], hc⟩
    | cons y r2 =>
      intro c hc
      rw [joinSents] at hc
      rcases List.mem_append.mp hc with hcx | hctl
      · exact Or.inl ⟨x, List.mem_cons_self x (y :: r2), hcx⟩
      · rcases List.mem_cons.mp hctl with hce | hctl2
        · exact Or.inr (Or.inl hce)
        · rcases List.mem_cons.mp hctl2 with hce | hctl3
          · exact Or.inr (Or.inr hce)
          · rcases ih c hctl3 with ⟨z, hz, hcz⟩ | hdot
            · exact Or.inl ⟨z, List.mem_cons_of_mem x hz, hcz⟩
            · exact Or.inr hdot

lemma pyStrip_nil : pyStrip [] = [] := rfl

lemma resplit (ts : List (List Char))
    (h : ∀ x ∈ ts, x ≠ [] ∧ pyStrip x = x ∧ '.' ∉ x) :
    ((splitDot (joinSents ts ++ ['.'])).map pyStrip).filter
      (fun x => x ≠ []) = ts := by
  induction ts with
  | nil => rfl
  | cons x rest ih =>
    obtain ⟨hxne, hxstrip, hxdot⟩ := h x (List.mem_cons_self x rest)
    cases rest with
    | nil =>
      rw [show joinSents [x] = x from rfl, splitDot_append_dot x [] hxdot]
      rw [show splitDot [] = [[]] from rfl]
      simp [hxstrip, hxne, pyStrip_nil]
    | cons y r2 =>
      rw [joinSents]
      have happ : (x ++ '.' :: ' ' :: joinSents (y :: r2)) ++ ['.']
          = x ++ '.' :: (' ' :: (joinSents (y :: r2) ++ ['.'])) := by
        simp
      rw [happ, splitDot_append_dot x _ hxdot, splitDot]
      cases hsp : splitDot (joinSents (y :: r2) ++ ['.']) with
      | nil => exact absurd hsp (splitDot_ne_nil _)
      | cons q qs =>
        have ihh := ih (fun z hz => h z (List.mem_cons_of_mem x hz))
        rw [hsp] at ihh
        have hws : Char.isWhitespace ' ' = true := by decide
        simp only [List.headI, List.tail, if_neg (by decide : ¬ (' ' = '.')),
          List.map_cons, List.filter_cons] at ihh ⊢
        rw [pyStrip_cons_ws hws q, hxstrip]
        rw [if_pos (by simp [hxne])]
        exact congrArg (x :: ·) ihh

lemma sumLen_append (a b : List (List Char)) :
    sumLen (a ++ b) = sumLen a + sumLen b := by
  simp [sumLen]

lemma len_le_sumLen (xs : List (List Char)) (h : ∀ x ∈ xs, x ≠ []) :
    xs.length ≤ sumLen xs := by
  induction xs with
  | nil => simp [sumLen]
  | cons x rest ih =>
    have hx : 0 < x.length :=
      List.length_pos.mpr (h x (List.mem_cons_self x rest))
    have := ih (fun z hz => h z (List.mem_cons_of_mem x hz))
    simp only [sumLen, List.map_cons, List.sum_cons, List.length_cons] at this ⊢
    omega

lemma sumLen_filter_le (p : List Char → Bool) (xs : List (List Char)) :
    sumLen (xs.filter p) ≤ sumLen xs := by
  induction xs with
  | nil => simp [sumLen]
  | cons x rest ih =>
    rw [List.filter_cons]
    split_ifs with hp
    · simp only [sumLen, List.map_cons, List.sum_cons] at ih ⊢
      omega
    · simp only [sumLen, List.map_cons, List.sum_cons] at ih ⊢
      omega

lemma sumLen_map_strip_le (xs : List (List Char)) :
    sumLen (xs.map pyStrip) ≤ sumLen xs := by
  induction xs with
  | nil => simp [sumLen]
  | cons x rest ih =>
    have := pyStrip_length_le x
    simp only [sumLen, List.map_cons, List.sum_cons] at ih ⊢
    omega

lemma termToDot_idem (c : Char) : termToDot (termToDot c) = termToDot c := by
  by_cases h : c = '!' ∨ c = '?'
  · simp [termToDot, h]
  · simp [termToDot, h]

lemma sentencesOf_props (s : String) :
    ∀ x ∈ sentencesOf s, x ≠ [] ∧ pyStrip x = x ∧ '.' ∉ x := by
  intro x hx
  unfold sentencesOf at hx
  obtain ⟨hxm, hxne⟩ := List.mem_filter.mp hx
  obtain ⟨p, hp, hpx⟩ := List.mem_map.mp hxm
  refine ⟨of_decide_eq_true hxne, ?_, ?_⟩
  · rw [← hpx]; exact pyStrip_idem p
  · intro hdot
    exact splitDot_no_dot _ p hp (pyStrip_sub p '.' (hpx ▸ hdot))

lemma sentencesOf_chars (s : String) :
    ∀ x ∈ sentencesOf s, ∀ c ∈ x, termToDot c = c := by
  intro x hx c hc
  unfold sentencesOf at hx
  obtain ⟨hxm, _⟩ := List.mem_filter.mp hx
  obtain ⟨p, hp, hpx⟩ := List.mem_map.mp hxm
  have hcl : c ∈ s.data.map termToDot :=
    splitDot_sub _ p hp c (pyStrip_sub p c (hpx ▸ hc))
  obtain ⟨c0, _, hc0⟩ := List.mem_map.mp hcl
  rw [← hc0]
  exact termToDot_idem c0

/-- Re-segmenting the summary recovers exactly the kept sentences. -/
lemma summary_sentences_eq (s : String) :
    sentencesOf (summarize s) = summarySentences s := by
  have hprops : ∀ x ∈ summarySentences s, x ≠ [] ∧ pyStrip x = x ∧ '.' ∉ x :=
    fun x hx => sentencesOf_props s x (List.take_subset _ _ hx)
  have hchars : ∀ c ∈ joinSents (summarySentences s) ++ ['.'],
      termToDot c = c := by
    intro c hc
    rcases List.mem_append.mp hc with hcj | hcd
    · rcases joinSents_mem _ c hcj with ⟨x, hx, hcx⟩ | hce | hce
      · exact sentencesOf_chars s x (List.take_subset _ _ hx) c hcx
      · subst hce; decide
      · subst hce; decide
    · rw [List.mem_singleton.mp hcd]; decide
  unfold sentencesOf
  rw [show (summarize s).data = joinSents (summarySentences s) ++ ['.'] from rfl]
  rw [List.map_congr_left hchars, List.map_id']
  exact resplit _ hprops

/-- Core counting argument: the joined kept sentences plus the final period
never exceed the total piece mass of the split. -/
lemma take_join_length (pieces : List (List Char)) (sents : List (List Char))
    (count : Nat) (hne : pieces ≠ [])
    (hs : sents = (pieces.map pyStrip).filter (fun x => x ≠ []))
    (hcount : count = min 3 (max 1 (sents.length / 3))) :
    (joinSents (sents.take count)).length + 1 ≤ sumLen pieces + pieces.length := by
  have hpieces_pos : 0 < pieces.length := List.length_pos.mpr hne
  by_cases hn : sents.length = 0
  · have hsnil : sents = [] := List.length_eq_zero.mp hn
    rw [hsnil]
    simp only [List.take_nil, joinSents, List.length_nil]
    omega
  · have hn1 : 1 ≤ sents.length := Nat.one_le_iff_ne_zero.mpr hn
    have hm : (sents.take count).length = min count sents.length :=
      List.length_take count sents
    have hm1 : 1 ≤ (sents.take count).length := by omega
    have htkne : sents.take count ≠ [] := by
      intro h; rw [h] at hm1; simp at hm1
    have hjoin := joinSents_length (sents.take count) htkne
    have hsentne : ∀ x ∈ sents, x ≠ [] := by
      intro x hx
      rw [hs] at hx
      exact of_decide_eq_true (List.mem_filter.mp hx).2
    have hdropne : ∀ x ∈ sents.drop count, x ≠ [] :=
      fun x hx => hsentne x (List.drop_subset count sents hx)
    have hdlen : (sents.drop count).length = sents.length - count :=
      List.length_drop count sents
    have hdsum := len_le_sumLen (sents.drop count) hdropne
    have hsum_split : sumLen sents
        = sumLen (sents.take count) + sumLen (sents.drop count) := by
      conv_lhs => rw [← List.take_append_drop count sents]
      exact sumLen_append _ _
    have hfil : sumLen sents ≤ sumLen (pieces.map pyStrip) := by
      rw [hs]; exact sumLen_filter_le _ _
    have hstrip := sumLen_map_strip_le pieces
    have hnp : sents.length ≤ pieces.length := by
      rw [hs]
      calc ((pieces.map pyStrip).filter (fun x => x ≠ [])).length
          ≤ (pieces.map pyStrip).length := List.length_filter_le _ _
        _ = pieces.length := List.length_map _ _
    omega

/-- C6 counterexample: on the one-character input "a" the mock summarizer
returns "a.", which is strictly longer than the input, refuting the claim
that the output is never longer than the input. -/
theorem summarizer_length_counterexample :
    summarize "a" = "a." ∧ ¬ ((summarize "a").length ≤ ("a" : String).length) := by
  constructor
  · rfl
  · decide

/-- C6 amended: the mock summarizer output is at most one character longer
than the input (the appended final period can exceed a period-free input by
one), its sentence count never exceeds the input sentence count, and it is
always non-empty. -/
theorem summarizer_amended_spec (s : String) :
    (summarize s).length ≤ s.length + 1
    ∧ sentenceCount (summarize s) ≤ sentenceCount s
    ∧ summarize s ≠ "" := by
  refine ⟨?_, ?_, ?_⟩
  · have hkey := take_join_length (splitDot (s.data.map termToDot))
      (sentencesOf s) (min 3 (max 1 ((sentencesOf s).length / 3)))
      (splitDot_ne_nil _) rfl rfl
    have hsum := splitDot_sum (s.data.map termToDot)
    have hlenmap : (s.data.map termToDot).length = s.length :=
      List.length_map s.data termToDot
    show (joinSents (summarySentences s) ++ ['.']).length ≤ s.length + 1
    rw [List.length_append]
    unfold summarySentences
    simp only [List.length_singleton]
    omega
  · unfold sentenceCount
    rw [summary_sentences_eq]
    unfold summarySentences
    rw [List.length_take]
    exact min_le_right _ _
  · intro he
    have hd := congrArg String.data he
    rw [show (summarize s).data
        = joinSents (summarySentences s) ++ ['.'] from rfl] at hd
    simp at hd

/-- Parsed POST body fields: body.get("tool") and body.get("input"); none
models an absent field (Python None). -/
structure Body where
  tool : Option String
  input : Option String

/-- An incoming serverless request.  The body field holds the outcome of
json.loads(request.body.decode()) plus field extraction: error e models an
exception raised while decoding, carrying str(e). -/
structure Request where
  method : String
  body : Except String Body

/-- The JSON values the handler serializes with json.dumps. -/
inductive JVal where
  | str : String → JVal
  | arr : List JVal → JVal
  | obj : List (String × JVal) → JVal

/-- A response body: either json.dumps of a JSON value or a plain string. -/
inductive RespBody where
  | json : JVal → RespBody
  | raw : String → RespBody

/-- The envelope returned by the serverless handler; hasJsonHeader records
whether the Content-Type: application/json header dict is attached. -/
structure Response where
  statusCode : Nat
  hasJsonHeader : Bool
  body : RespBody

/-- One draw of the process-wide random source: choice numbers for
random.sample (s0, s1, s2) and random.choice (c). -/
structure RandSrc where
  s0 : Nat
  s1 : Nat
  s2 : Nat
  c : Nat

/-- list(tools.keys()): the registry keys in insertion order. -/
def toolNames : List String :=
  ["semantics", "image-classifier", "summarizer", "joke", "haiku", "question"]

/-- Python str() as used by f-string interpolation of a possibly-None
value. -/
def strOrNone : Option String → String
  | none => "None"
  | some s => s

/-- tools[tool_name].process_query(user_input): dispatch to the mock tool.
An error carries str(e) of the exception the Python call would raise; a
missing input reaches the tools as None, which only the handlers that call
a string method on it turn into an AttributeError. -/
def runTool (name : String) (input : Option String) (r : RandSrc) :
    Except String JVal :=
  if name = "semantics" then
    match input with
    | none => .error "\x27NoneType\x27 object has no attribute \x27lower\x27"
    | some s => .ok (JVal.obj [("result", JVal.str (semantics_processQuery s))])
  else if name = "image-classifier" then
    .ok (JVal.obj [("result",
      JVal.str (image_processQuery (strOrNone input) r.s0 r.s1 r.s2))])
  else if name = "summarizer" then
    match input with
    | none => .error "\x27NoneType\x27 object has no attribute \x27replace\x27"
    | some s => .ok (JVal.obj [("result", JVal.str (summarize s))])
  else if name = "joke" then
    .ok (JVal.obj [("result", JVal.str (joke_processQuery (strOrNone input) r.c))])
  else if name = "haiku" then
    match input with
    | none => .error "\x27NoneType\x27 object has no attribute \x27capitalize\x27"
    | some s => .ok (JVal.obj [("result", JVal.str (haiku_processQuery s r.c))])
  else if name = "question" then
    .ok (JVal.obj [("result",
      JVal.str (question_processQuery (strOrNone input) r.c))])
  else
    .error ("KeyError: " ++ name)

/-- The serverless handler of api/ai_tools.py, parametrized by the
tool-running function so that claims about requests that must not reach any
handler can quantify over every possible tool behavior. -/
def handlerWith (run : String → Option String → RandSrc → Except String JVal)
    (req : Request) (r : RandSrc) : Response :=
  if req.method = "POST" then
    match req.body with
    | .error e =>
      { statusCode := 500, hasJsonHeader := false,
        body := .json (JVal.obj [("error", JVal.str e)]) }
    | .ok b =>
      match b.tool with
      | some t =>
        if t ∈ toolNames then
          match run t b.input r with
          | .ok v =>
            { statusCode := 200, hasJsonHeader := true, body := .json v }
          | .error e =>
            { statusCode := 500, hasJsonHeader := false,
              body := .json (JVal.obj [("error", JVal.str e)]) }
        else
          { statusCode := 400, hasJsonHeader := false,
            body := .json (JVal.obj
              [("error", JVal.str ("Unknown tool: " ++ t))]) }
      | none =>
        { statusCode := 400, hasJsonHeader := false,
          body := .json (JVal.obj
            [("error", JVal.str ("Unknown tool: " ++ strOrNone none))]) }
  else if req.method = "GET" then
    { statusCode := 200, hasJsonHeader := true,
      body := .json (JVal.obj [("status", JVal.str "ok"),
        ("available_tools", JVal.arr (toolNames.map JVal.str))]) }
  else
    { statusCode := 405, hasJsonHeader := false,
      body := .raw "Method Not Allowed" }

/-- The serverless handler with the registry of api/ai_tools.py. -/
def handler (req : Request) (r : RandSrc) : Response :=
  handlerWith runTool req r

/-- C1: a POST request naming any registered tool with a string input gets
a 200 response whose JSON body is a single-field result object holding a
string; no exception leaves the dispatcher. -/
theorem dispatch_registered_success (name : String) (input : String)
    (r : RandSrc) (hmem : name ∈ toolNames) :
    ∃ s, handler ⟨"POST", .ok ⟨some name, some input⟩⟩ r =
      ⟨200, true, .json (JVal.obj [("result", JVal.str s)])⟩ := by
  fin_cases hmem
  · exact ⟨semantics_processQuery input, rfl⟩
  · exact ⟨image_processQuery input r.s0 r.s1 r.s2, rfl⟩
  · exact ⟨summarize input, rfl⟩
  · exact ⟨joke_processQuery input r.c, rfl⟩
  · exact ⟨haiku_processQuery input r.c, rfl⟩
  · exact ⟨question_processQuery input r.c, rfl⟩

/-- Instantiation of the success-envelope contract at the semantics tool
with input "good". -/
theorem dispatch_registered_success_witness :
    ∃ s, handler ⟨"POST", .ok ⟨some "semantics", some "good"⟩⟩ ⟨0, 0, 0, 0⟩ =
      ⟨200, true, .json (JVal.obj [("result", JVal.str s)])⟩ :=
  dispatch_registered_success "semantics" "good" ⟨0, 0, 0, 0⟩ (by decide)

/-- C2: a POST request whose tool field is absent or names an unregistered
key gets a 400 response, built without consulting any tool-running
function, whose error message embeds the unknown tool name. -/
theorem dispatch_unknown_tool
    (run : String → Option String → RandSrc → Except String JVal)
    (req : Request) (b : Body) (r : RandSrc)
    (hm : req.method = "POST") (hb : req.body = .ok b)
    (hunk : ∀ t, b.tool = some t → t ∉ toolNames) :
    handlerWith run req r =
      ⟨400, false, .json (JVal.obj
        [("error", JVal.str ("Unknown tool: " ++ strOrNone b.tool))])⟩
    ∧ ∀ t, b.tool = some t →
        ∃ p q, "Unknown tool: " ++ strOrNone b.tool = p ++ t ++ q := by
  constructor
  · obtain ⟨m, bd⟩ := req
    dsimp only at hm hb
    subst hm
    subst hb
    obtain ⟨tool, inp⟩ := b
    dsimp only at hunk ⊢
    cases tool with
    | none => rfl
    | some t =>
      have hnot : t ∉ toolNames := hunk t rfl
      simp [handlerWith, hnot, strOrNone]
  · intro t ht
    refine ⟨"Unknown tool: ", "", ?_⟩
    rw [ht]
    simp [strOrNone]

/-- Instantiation of the unknown-tool contract at the literal tool name
"nonexistent". -/
theorem dispatch_unknown_tool_witness :
    handlerWith runTool
        ⟨"POST", .ok ⟨some "nonexistent", some "x"⟩⟩ ⟨0, 0, 0, 0⟩ =
      ⟨400, false, .json (JVal.obj [("error",
        JVal.str ("Unknown tool: " ++ strOrNone (some "nonexistent")))])⟩
    ∧ ∀ t, (some "nonexistent" : Option String) = some t →
        ∃ p q, "Unknown tool: " ++ strOrNone (some "nonexistent")
          = p ++ t ++ q :=
  dispatch_unknown_tool runTool
    ⟨"POST", .ok ⟨some "nonexistent", some "x"⟩⟩
    ⟨some "nonexistent", some "x"⟩ ⟨0, 0, 0, 0⟩ rfl rfl
    (by intro t ht; injection ht with h; subst h; decide)

/-- C3: whenever body decoding or a registered tool invocation raises, the
dispatcher answers 500 with a JSON object carrying the exception message;
being a total function it can propagate no exception itself. -/
theorem dispatch_exception_to_500 (req : Request) (r : RandSrc) (e : String)
    (hm : req.method = "POST")
    (h : req.body = .error e
      ∨ ∃ b, req.body = .ok b ∧ ∃ t, b.tool = some t ∧ t ∈ toolNames
          ∧ runTool t b.input r = .error e) :
    handler req r =
      ⟨500, false, .json (JVal.obj [("error", JVal.str e)])⟩ := by
  obtain ⟨m, bd⟩ := req
  dsimp only at hm
  subst hm
  rcases h with he | ⟨b, hb, t, ht, hmem, hrun⟩
  · dsimp only at he
    subst he
    rfl
  · dsimp only at hb
    subst hb
    obtain ⟨tool, inp⟩ := b
    dsimp only at ht hrun
    subst ht
    simp [handler, handlerWith, hmem, hrun]

/-- Instantiation of the exception contract at a request whose body fails
to decode. -/
theorem dispatch_exception_to_500_witness :
    handler ⟨"POST", .error "boom"⟩ ⟨0, 0, 0, 0⟩ =
      ⟨500, false, .json (JVal.obj [("error", JVal.str "boom")])⟩ :=
  dispatch_exception_to_500 ⟨"POST", .error "boom"⟩ ⟨0, 0, 0, 0⟩ "boom"
    rfl (Or.inl rfl)

/-- C8: every GET request is answered 200 with status ok and exactly the
six registered tool names, whatever the request body or random state; the
embedding carries no mutable registry, so no request history can change
this. -/
theorem health_check_fixed_tools (req : Request) (r : RandSrc)
    (hm : req.method = "GET") :
    handler req r =
      ⟨200, true, .json (JVal.obj [("status", JVal.str "ok"),
        ("available_tools", JVal.arr
          [JVal.str "semantics", JVal.str "image-classifier",
           JVal.str "summarizer", JVal.str "joke", JVal.str "haiku",
           JVal.str "question"])])⟩ := by
  unfold handler handlerWith
  have hne : req.method ≠ "POST" := by rw [hm]; decide
  rw [if_neg hne, if_pos hm]
  rfl

/-- Instantiation of the readiness-probe contract at a bare GET request. -/
theorem health_check_fixed_tools_witness :
    handler ⟨"GET", .ok ⟨none, none⟩⟩ ⟨0, 0, 0, 0⟩ =
      ⟨200, true, .json (JVal.obj [("status", JVal.str "ok"),
        ("available_tools", JVal.arr
          [JVal.str "semantics", JVal.str "image-classifier",
           JVal.str "summarizer", JVal.str "joke", JVal.str "haiku",
           JVal.str "question"])])⟩ :=
  health_check_fixed_tools ⟨"GET", .ok ⟨none, none⟩⟩ ⟨0, 0, 0, 0⟩ rfl

/-- C10: a request whose method is neither POST nor GET is answered 405
with the plain-string body Method Not Allowed, without consulting any
tool-running function. -/
theorem method_not_allowed
    (run : String → Option String → RandSrc → Except String JVal)
    (req : Request) (r : RandSrc)
    (h1 : req.method ≠ "POST") (h2 : req.method ≠ "GET") :
    handlerWith run req r = ⟨405, false, .raw "Method Not Allowed"⟩ := by
  unfold handlerWith
  rw [if_neg h1, if_neg h2]

/-- Instantiation of the 405 contract at a PUT request. -/
theorem method_not_allowed_witness :
    handlerWith runTool ⟨"PUT", .ok ⟨none, none⟩⟩ ⟨0, 0, 0, 0⟩ =
      ⟨405, false, .raw "Method Not Allowed"⟩ :=
  method_not_allowed runTool ⟨"PUT", .ok ⟨none, none⟩⟩ ⟨0, 0, 0, 0⟩
    (by decide) (by decide)
